import Mathlib

/-!
# Typed Record Container — verification development

A shallow embedding of the "Typed Record Container" abstraction described by
the repository's design specification: a fixed-length, fixed-schema container
of named, typed records with dual accessors (by field name and by record
position), boolean-mask selection, and an attribute-style sugar view.

The container implementation exercised by the notebook lives in an external
numerical library, so the operations below are modelled from the spec
(sections 4.1, 6 and 7): `construct`, `get_field`, `set_field`, `get_record`,
`select`, and the attribute view. Storage is made explicit through a `Store`
(a list of buffers) so that view/copy distinctions are expressible.
-/

namespace NpStruct

/-- Modelled from the spec: the error taxonomy of section 7 (SchemaError,
TypeFormatError, IndexError-class, KeyError-class, ShapeMismatchError). -/
inductive Err where
  | schemaError
  | typeFormatError
  | indexError
  | keyError
  | shapeMismatchError
deriving DecidableEq, Repr

/-- Modelled from the spec: the supported type classes
{signed-int, unsigned-int, float, complex-float, byte-string,
unicode-string, raw-opaque}. -/
inductive TypeClass where
  | signedInt
  | unsignedInt
  | floatT
  | complexFloat
  | byteString
  | unicodeString
  | rawOpaque
deriving DecidableEq, Repr

/-- A parsed field type: a type class together with a size in bytes (for
string types, a maximum character length; 0 when the descriptor carries no
size specifier). -/
structure FieldType where
  cls : TypeClass
  size : Nat
deriving DecidableEq, Repr

/-- Scalar or nested fixed-shape field values stored in a container.
Floating-point payloads are modelled exactly as rationals, since the
material performs no rounding arithmetic on them. -/
inductive Value where
  | intV (n : Int)
  | floatV (q : Rat)
  | complexV (re im : Rat)
  | strV (s : String)
  | arrV (vs : List Value)

/-- A canonical field descriptor: name, parsed type, and fixed shape
([] for a scalar field). -/
structure FieldDescr where
  name : String
  type : FieldType
  shape : List Nat
deriving DecidableEq, Repr

/-- The type-class tags accepted by the type-code grammar
(`b` byte, `i` signed int, `u` unsigned int, `f` float, `c` complex float,
`S`/`a` byte string, `U` unicode string, `V` raw/void). -/
def supportedTags : List Char := ['b', 'i', 'u', 'f', 'c', 'S', 'a', 'U', 'V']

/-- Map a type-class tag character to its type class, `none` if unknown. -/
def tagClass (c : Char) : Option TypeClass :=
  if c = 'b' then some .signedInt
  else if c = 'i' then some .signedInt
  else if c = 'u' then some .unsignedInt
  else if c = 'f' then some .floatT
  else if c = 'c' then some .complexFloat
  else if c = 'S' then some .byteString
  else if c = 'a' then some .byteString
  else if c = 'U' then some .unicodeString
  else if c = 'V' then some .rawOpaque
  else none

/-- Default size when a descriptor carries no explicit size digits:
a bare `b` is the 1-byte integer, the flexible tags default to size 0. -/
def defaultSize (c : Char) : Nat :=
  if c = 'b' then 1 else 0

/-- Numeric value of a digit string. -/
def natOfDigits (ds : List Char) : Nat :=
  ds.foldl (fun a c => a * 10 + (c.toNat - 48)) 0

/-- Drop the optional leading byte-order tag (`<` little-endian or
`>` big-endian); canonical types do not record endianness. -/
def dropOrder (cs : List Char) : List Char :=
  match cs with
  | c :: rest => if c = '<' ∨ c = '>' then rest else cs
  | [] => []

/-- Modelled from the spec: the type-code grammar of section 4.1 —
an optional byte-order tag, a type-class tag, and an optional positive
size specifier; unknown tags and non-positive sizes are rejected with
a TypeFormatError. -/
def parseTypeChars (cs : List Char) : Except Err FieldType :=
  match dropOrder cs with
  | [] => .error .typeFormatError
  | t :: rest =>
    match tagClass t with
    | none => .error .typeFormatError
    | some cls =>
      if rest.all Char.isDigit then
        if rest.isEmpty then .ok ⟨cls, defaultSize t⟩
        else
          let n := natOfDigits rest
          if 0 < n then .ok ⟨cls, n⟩ else .error .typeFormatError
      else .error .typeFormatError

/-- Parse a type descriptor string such as "i4", "<f8", "U10". -/
def parseTypeDescr (s : String) : Except Err FieldType :=
  parseTypeChars s.data

/-- The zero scalar of a type class (empty string for string types). -/
def zeroScalar (ft : FieldType) : Value :=
  match ft.cls with
  | .signedInt => .intV 0
  | .unsignedInt => .intV 0
  | .floatT => .floatV 0
  | .complexFloat => .complexV 0 0
  | .byteString => .strV ""
  | .unicodeString => .strV ""
  | .rawOpaque => .intV 0

/-- The zero value of a field: the zero scalar, nested to the field's
fixed shape. -/
def zeroValue (ft : FieldType) : List Nat → Value
  | [] => zeroScalar ft
  | d :: ds => .arrV (List.replicate d (zeroValue ft ds))

/-- Whether a scalar value inhabits a type class (string values must fit
the declared maximum length; raw-opaque accepts any payload). -/
def scalarMatches (ft : FieldType) (v : Value) : Bool :=
  match ft.cls, v with
  | .signedInt, .intV _ => true
  | .unsignedInt, .intV n => decide (0 ≤ n)
  | .floatT, .floatV _ => true
  | .complexFloat, .complexV _ _ => true
  | .byteString, .strV s => decide (s.length ≤ ft.size)
  | .unicodeString, .strV s => decide (s.length ≤ ft.size)
  | .rawOpaque, _ => true
  | _, _ => false

mutual

/-- Whether a value inhabits a field type at a given fixed shape. -/
def valueMatches (ft : FieldType) : List Nat → Value → Bool
  | [], v => scalarMatches ft v
  | d :: ds, .arrV vs => decide (vs.length = d) && valueListMatches ft ds vs
  | _ :: _, _ => false

/-- Whether every value in a list inhabits a field type at a shape. -/
def valueListMatches (ft : FieldType) (ds : List Nat) : List Value → Bool
  | [] => true
  | v :: vs => valueMatches ft ds v && valueListMatches ft ds vs

end

/-- The declared type coercion applied on storage at a scalar position:
string payloads are truncated to the declared maximum length; all other
scalars are stored as supplied. -/
def coerceScalar (ft : FieldType) (v : Value) : Value :=
  match ft.cls, v with
  | .byteString, .strV s => .strV (s.take ft.size)
  | .unicodeString, .strV s => .strV (s.take ft.size)
  | _, _ => v

mutual

/-- The declared type coercion applied through nested fixed-shape values. -/
def coerceValue (ft : FieldType) : Value → Value
  | .arrV vs => .arrV (coerceValueList ft vs)
  | .intV n => coerceScalar ft (.intV n)
  | .floatV q => coerceScalar ft (.floatV q)
  | .complexV a b => coerceScalar ft (.complexV a b)
  | .strV s => coerceScalar ft (.strV s)

/-- `coerceValue` mapped over a list. -/
def coerceValueList (ft : FieldType) : List Value → List Value
  | [] => []
  | v :: vs => coerceValue ft v :: coerceValueList ft vs

end

/-- Modelled from the spec: the equivalent schema specification forms of
section 4.1 — a mapping from names to type codes, a list of
(name, type, optional shape) tuples, a compact type-only string with
auto-generated field names, and the canonical normalized form. -/
inductive SchemaSpec where
  | mapForm (names : List String) (formats : List String)
  | tupleForm (fields : List (String × String × List Nat))
  | compactForm (formats : List String)
  | canonicalForm (fields : List FieldDescr)

/-- Parse one (name, format, shape) triple into a canonical descriptor. -/
def parseField (nm : String) (fmt : String) (shape : List Nat) :
    Except Err FieldDescr :=
  (parseTypeDescr fmt).map (fun t => ⟨nm, t, shape⟩)

/-- Auto-generated positional field names "f0", "f1", ... -/
def autoNames (n : Nat) : List String :=
  (List.range n).map (fun i => "f" ++ toString i)

/-- Parse each entry of a schema specification in order; the first parse
error aborts normalization. -/
def mapFields {α : Type _} (f : α → Except Err FieldDescr) :
    List α → Except Err (List FieldDescr)
  | [] => .ok []
  | a :: l => do
    let fd ← f a
    let rest ← mapFields f l
    return fd :: rest

/-- Modelled from the spec: normalization of any schema specification form
into the canonical ordered list of field descriptors; a pure function, and
an already-normalized schema is returned unchanged. -/
def normalize : SchemaSpec → Except Err (List FieldDescr)
  | .mapForm names formats =>
    if names.length = formats.length then
      mapFields (fun p => parseField p.1 p.2 []) (names.zip formats)
    else .error .schemaError
  | .tupleForm fields =>
    mapFields (fun f => parseField f.1 f.2.1 f.2.2) fields
  | .compactForm formats =>
    mapFields (fun p => parseField p.1 p.2 [])
      ((autoNames formats.length).zip formats)
  | .canonicalForm fields => .ok fields

/-- No field name occurs twice. -/
def dupFree : List String → Bool
  | [] => true
  | n :: rest => !(rest.contains n) && dupFree rest

/-- Explicit storage: an ordered collection of record buffers, each buffer
one contiguous region holding a list of records (a record is the list of
its per-field values). -/
structure Store where
  bufs : List (List (List Value))

/-- A container: a handle to one buffer plus the canonical schema shared by
all its records. -/
structure Container where
  buf : Nat
  schema : List FieldDescr

/-- The records a container's buffer currently holds. -/
def records (st : Store) (c : Container) : List (List Value) :=
  st.bufs.getD c.buf []

/-- The container's fixed length (number of records). -/
def recordCount (st : Store) (c : Container) : Nat :=
  (records st c).length

/-- Position of a field name in a schema, scanning descriptors in order. -/
def fieldIndex : List FieldDescr → String → Option Nat
  | [], _ => none
  | fd :: rest, nm =>
    if fd.name = nm then some 0 else (fieldIndex rest nm).map (· + 1)

/-- A negative index counts from the end: resolve it by adding the length. -/
def pyResolve (i : Int) (n : Nat) : Int :=
  if i < 0 then i + n else i

/-- Python-style index resolution: negative indices count from the end;
out-of-range indices resolve to `none`. -/
def pyIdx (i : Int) (n : Nat) : Option Nat :=
  if 0 ≤ pyResolve i n ∧ pyResolve i n < n then some (pyResolve i n).toNat
  else none

/-- Modelled from the spec: Construct(schema_spec, record_count) — normalize
the schema, reject duplicate field names and negative record counts with a
SchemaError, and allocate a fresh zero-initialized buffer of record_count
records. -/
def construct (sp : SchemaSpec) (n : Int) (st : Store) :
    Except Err (Container × Store) :=
  match normalize sp with
  | .error e => .error e
  | .ok schema =>
    if dupFree (schema.map (·.name)) then
      if 0 ≤ n then
        let zrec := schema.map (fun fd => zeroValue fd.type fd.shape)
        .ok (⟨st.bufs.length, schema⟩, ⟨st.bufs ++ [List.replicate n.toNat zrec]⟩)
      else .error .schemaError
    else .error .schemaError

/-- Modelled from the spec: access by field name — the field's values
across all records, in the container's logical order. -/
def get_field (st : Store) (c : Container) (nm : String) :
    Except Err (List Value) :=
  match fieldIndex c.schema nm with
  | none => .error .keyError
  | some k => .ok ((records st c).map (fun r => r.getD k (.intV 0)))

/-- Element-wise store of a column of values at field position k. -/
def applyColumn (recs : List (List Value)) (k : Nat) (vs : List Value) :
    List (List Value) :=
  (recs.zip vs).map (fun p => p.1.set k p.2)

/-- Write a value sequence into field position k of a buffer: the sequence
length must equal the record count, and every value must (after the
declared coercion) inhabit the field's type and shape, else a
ShapeMismatchError. -/
def writeField (st : Store) (bufId : Nat) (fd : FieldDescr) (k : Nat)
    (vs : List Value) : Except Err Store :=
  if vs.length = (st.bufs.getD bufId []).length then
    if (vs.map (coerceValue fd.type)).all
        (fun v => valueMatches fd.type fd.shape v) then
      .ok ⟨st.bufs.set bufId
        (applyColumn (st.bufs.getD bufId []) k (vs.map (coerceValue fd.type)))⟩
    else .error .shapeMismatchError
  else .error .shapeMismatchError

/-- Modelled from the spec: set_field(name, values) — element-wise store of
a matching-length value sequence into the field's strided positions. -/
def set_field (st : Store) (c : Container) (nm : String) (vs : List Value) :
    Except Err Store :=
  match fieldIndex c.schema nm with
  | none => .error .keyError
  | some k => writeField st c.buf (c.schema.getD k ⟨"", ⟨.rawOpaque, 0⟩, []⟩) k vs

/-- Modelled from the spec: get_record(index) — one record as the ordered
tuple of its per-field values; negative indices count from the end and
out-of-range indices fail with an IndexError-class condition. -/
def get_record (st : Store) (c : Container) (i : Int) :
    Except Err (List Value) :=
  match pyIdx i (recordCount st c) with
  | none => .error .indexError
  | some j => .ok ((records st c).getD j [])

/-- Keep the records at true mask positions, in order. -/
def maskFilter : List Bool → List (List Value) → List (List Value)
  | [], _ => []
  | _, [] => []
  | b :: ms, r :: rs => if b then r :: maskFilter ms rs else maskFilter ms rs

/-- Modelled from the spec: select(mask) — a boolean mask of length
record_count selects the records at true positions into a fresh buffer
(a copy, not a view); a wrong-length mask fails with a
ShapeMismatchError. -/
def select (st : Store) (c : Container) (mask : List Bool) :
    Except Err (Container × Store) :=
  if mask.length = recordCount st c then
    .ok (⟨st.bufs.length, c.schema⟩,
         ⟨st.bufs ++ [maskFilter mask (records st c)]⟩)
  else .error .shapeMismatchError

/-- The attribute-style sugar view: a non-owning reference to the container
plus a name-to-position mapping built once at construction. -/
structure AttrView where
  base : Container
  nameMap : List (String × Nat)

/-- Build the name-to-position mapping, positions starting at i. -/
def buildNameMap (i : Nat) : List FieldDescr → List (String × Nat)
  | [] => []
  | fd :: rest => (fd.name, i) :: buildNameMap (i + 1) rest

/-- Modelled from the spec: as_attribute_view() — wrap the container with a
name-to-offset mapping resolved once, never per access; the view shares the
container's storage. -/
def as_attribute_view (c : Container) : AttrView :=
  ⟨c, buildNameMap 0 c.schema⟩

/-- First value bound to a name in an association list. -/
def lookupName : List (String × Nat) → String → Option Nat
  | [], _ => none
  | (s, k) :: rest, nm => if s = nm then some k else lookupName rest nm

/-- Attribute-style read: resolve the field through the precomputed
name map, then read the same storage the container reads. -/
def attr_get (st : Store) (v : AttrView) (nm : String) :
    Except Err (List Value) :=
  match lookupName v.nameMap nm with
  | none => .error .keyError
  | some k => .ok ((records st v.base).map (fun r => r.getD k (.intV 0)))

/-- Attribute-style write: resolve the field through the precomputed
name map, then write into the same storage the container writes. -/
def attr_set (st : Store) (v : AttrView) (nm : String) (vs : List Value) :
    Except Err Store :=
  match lookupName v.nameMap nm with
  | none => .error .keyError
  | some k =>
    writeField st v.base.buf (v.base.schema.getD k ⟨"", ⟨.rawOpaque, 0⟩, []⟩) k vs

/-- Field-name access chained with record-position access:
container[name][i]. -/
def fieldThenIndex (st : Store) (c : Container) (nm : String) (i : Int) :
    Except Err Value :=
  match get_field st c nm with
  | .error e => .error e
  | .ok col =>
    match pyIdx i col.length with
    | none => .error .indexError
    | some j => .ok (col.getD j (.intV 0))

/-- Record-position access chained with field-name access:
container[i][name]. -/
def indexThenField (st : Store) (c : Container) (i : Int) (nm : String) :
    Except Err Value :=
  match get_record st c i with
  | .error e => .error e
  | .ok r =>
    match fieldIndex c.schema nm with
    | none => .error .keyError
    | some k => .ok (r.getD k (.intV 0))

/-- The record positions a mask marks true. -/
def maskPositions (mask : List Bool) : List Nat :=
  (List.range mask.length).filter (fun j => mask.getD j false)

/-- Written from the spec's words, for comparison with `select`: the records
found at exactly the true positions of the mask, in their original relative
order. -/
def specMaskSelect (mask : List Bool) (recs : List (List Value)) :
    List (List Value) :=
  (maskPositions mask).map (fun j => recs.getD j [])

/-- The mask "column < t" over a column of integer values. -/
def intLtMask (col : List Value) (t : Int) : List Bool :=
  col.map (fun v => match v with | .intV n => decide (n < t) | _ => false)

/-- The notebook's example schema:
name U10, age i4, weight f8. -/
def exSchema : List FieldDescr :=
  [⟨"name", ⟨.unicodeString, 10⟩, []⟩,
   ⟨"age", ⟨.signedInt, 4⟩, []⟩,
   ⟨"weight", ⟨.floatT, 8⟩, []⟩]

/-- The notebook's example data: Alice/Bob/Cathy/Doug with their ages and
weights. -/
def exRecords : List (List Value) :=
  [[.strV "Alice", .intV 25, .floatV 55],
   [.strV "Bob", .intV 45, .floatV (171 / 2)],
   [.strV "Cathy", .intV 37, .floatV 68],
   [.strV "Doug", .intV 19, .floatV (123 / 2)]]

/-- A store holding the populated example container's buffer. -/
def exStore : Store := ⟨[exRecords]⟩

/-- The populated example container. -/
def exC : Container := ⟨0, exSchema⟩

/-- A store holding one empty buffer. -/
def exEmptyStore : Store := ⟨[[]]⟩

/-- An empty container (zero records) over the example schema. -/
def exEmptyC : Container := ⟨0, exSchema⟩

/-- Replacement names written through set_field in round-trip checks. -/
def exNewNames : List Value :=
  [.strV "Eve", .strV "Frank", .strV "Gina", .strV "Hank"]

/-- The example store after set_field("name", exNewNames). -/
def exRenamedStore : Store :=
  ⟨[[[.strV "Eve", .intV 25, .floatV 55],
     [.strV "Frank", .intV 45, .floatV (171 / 2)],
     [.strV "Gina", .intV 37, .floatV 68],
     [.strV "Hank", .intV 19, .floatV (123 / 2)]]]⟩

/-- The example age column. -/
def exAges : List Value := [.intV 25, .intV 45, .intV 37, .intV 19]

/-- The records selected from the example data by the mask age < 30. -/
def exSelRecords : List (List Value) :=
  [[.strV "Alice", .intV 25, .floatV 55],
   [.strV "Doug", .intV 19, .floatV (123 / 2)]]

/-- The store after selecting by the mask age < 30: the original buffer plus
the freshly copied selection buffer. -/
def exSelStore : Store := ⟨[exRecords, exSelRecords]⟩

/-- The container returned by selecting with the mask age < 30. -/
def exSelC : Container := ⟨1, exSchema⟩

/-- The store after additionally writing ages [99, 100] into the selection
result: only the selection's buffer changes. -/
def exSelWrittenStore : Store :=
  ⟨[exRecords,
    [[.strV "Alice", .intV 99, .floatV 55],
     [.strV "Doug", .intV 100, .floatV (123 / 2)]]]⟩

/-- The notebook's nested-field schema: id i8 and a 3x3 f8 matrix. -/
def matSchema : List FieldDescr :=
  [⟨"id", ⟨.signedInt, 8⟩, []⟩, ⟨"mat", ⟨.floatT, 8⟩, [3, 3]⟩]

/-- The nested-field schema given in tuple specification form, as in the
notebook. -/
def matSpec : SchemaSpec := .tupleForm [("id", "i8", []), ("mat", "f8", [3, 3])]

/-- A 3x3 all-zero float block. -/
def matZero : Value :=
  .arrV (List.replicate 3 (.arrV (List.replicate 3 (.floatV 0))))

/-- The freshly constructed length-1 nested-field container. -/
def matC : Container := ⟨0, matSchema⟩

/-- The store after constructing the nested-field container from an empty
store. -/
def matStore : Store := ⟨[[[.intV 0, matZero]]]⟩

/-- Model of np.int32. -/
def npInt32 : FieldType := ⟨.signedInt, 4⟩

/-- Model of np.uint8. -/
def npUint8 : FieldType := ⟨.unsignedInt, 1⟩

/-- Model of np.int64. -/
def npInt64 : FieldType := ⟨.signedInt, 8⟩

/-- Model of np.float64. -/
def npFloat64 : FieldType := ⟨.floatT, 8⟩

/-- Model of np.complex128. -/
def npComplex128 : FieldType := ⟨.complexFloat, 16⟩

/-- Model of np.str_, the flexible unicode string type. -/
def npStrType : FieldType := ⟨.unicodeString, 0⟩

/-- Model of np.void, the flexible raw/void type. -/
def npVoidType : FieldType := ⟨.rawOpaque, 0⟩

/-- The conjunction of dtype equalities asserted in the notebook's
type-code table, verbatim: i4 = int32, u1 = uint8, f8 = int64,
c16 = complex128, U = str, V = void. -/
def tableClaims : Prop :=
  parseTypeDescr "i4" = .ok npInt32 ∧
  parseTypeDescr "u1" = .ok npUint8 ∧
  parseTypeDescr "f8" = .ok npInt64 ∧
  parseTypeDescr "c16" = .ok npComplex128 ∧
  parseTypeDescr "U" = .ok npStrType ∧
  parseTypeDescr "V" = .ok npVoidType

theorem getD_map_of_lt {α β : Type _} (l : List α) (f : α → β) (j : Nat)
    (d : β) (d' : α) (h : j < l.length) :
    (l.map f).getD j d = f (l.getD j d') := by
  rw [List.getD_eq_getElem _ _ (by simpa using h), List.getD_eq_getElem _ _ h,
    List.getElem_map]

theorem pyIdx_lt {i : Int} {n j : Nat} (h : pyIdx i n = some j) : j < n := by
  unfold pyIdx at h
  split at h
  · next hc =>
    injection h with h'
    omega
  · exact absurd h (by simp)

/-- The table's claimed equality for 'f8' fails: 'f8' parses as the 8-byte
float, which is a different type than the 8-byte signed integer. -/
theorem tableClaims_refuted : ¬ tableClaims := by
  intro h
  have h3 := h.2.2.1
  rw [show parseTypeDescr "f8" = Except.ok npFloat64 from rfl] at h3
  exact absurd (Except.ok.inj h3) (by decide)

/-- C9 (amended): every dtype equality in the notebook's type-code table
holds once the 'f8' row is read as np.float64 (the 8-byte float) instead of
np.int64: i4 = int32, u1 = uint8, f8 = float64, c16 = complex128,
U = str, V = void. -/
theorem tableClaims_amended :
    parseTypeDescr "i4" = .ok npInt32 ∧
    parseTypeDescr "u1" = .ok npUint8 ∧
    parseTypeDescr "f8" = .ok npFloat64 ∧
    parseTypeDescr "c16" = .ok npComplex128 ∧
    parseTypeDescr "U" = .ok npStrType ∧
    parseTypeDescr "V" = .ok npVoidType :=
  ⟨rfl, rfl, rfl, rfl, rfl, rfl⟩

theorem tagClass_isSome_iff (t : Char) :
    (tagClass t).isSome ↔ t ∈ supportedTags := by
  simp only [tagClass, supportedTags, List.mem_cons, List.not_mem_nil, or_false]
  split_ifs <;> simp_all

/-- C8: a type descriptor (optional byte-order tag, type-class tag, digit
size specifier) is accepted exactly when its tag is in the supported set
and its size specifier, when present, is positive; an unknown tag or a
non-positive size is rejected with a TypeFormatError. -/
theorem parse_type_descr_accepts_iff (ord : List Char) (t : Char)
    (ds : List Char) (hord : ord = [] ∨ ord = ['<'] ∨ ord = ['>'])
    (ht : t ≠ '<' ∧ t ≠ '>') (hds : ds.all Char.isDigit = true) :
    ((parseTypeChars (ord ++ t :: ds)).isOk ↔
      (t ∈ supportedTags ∧ (ds = [] ∨ 0 < natOfDigits ds)))
    ∧ (¬ (t ∈ supportedTags ∧ (ds = [] ∨ 0 < natOfDigits ds)) →
        parseTypeChars (ord ++ t :: ds) = .error .typeFormatError) := by
  have hdrop : dropOrder (ord ++ t :: ds) = t :: ds := by
    rcases hord with h | h | h <;> subst h <;>
      simp [dropOrder, ht.1, ht.2]
  have hmain : parseTypeChars (ord ++ t :: ds) =
      (match tagClass t with
       | none => .error .typeFormatError
       | some cls =>
         if ds.all Char.isDigit then
           if ds.isEmpty then .ok ⟨cls, defaultSize t⟩
           else if 0 < natOfDigits ds then .ok ⟨cls, natOfDigits ds⟩
           else .error .typeFormatError
         else .error .typeFormatError) := by
    unfold parseTypeChars
    rw [hdrop]
  rcases htc : tagClass t with _ | cls
  · have hnot : t ∉ supportedTags := by
      rw [← tagClass_isSome_iff, htc]
      simp
    rw [hmain, htc]
    simp [hnot, Except.isOk, Except.toBool]
  · have hmem : t ∈ supportedTags := by
      rw [← tagClass_isSome_iff, htc]
      simp
    rw [hmain, htc]
    rcases ds with _ | ⟨d, ds'⟩
    · simp [hmem, Except.isOk, Except.toBool]
    · simp only [List.isEmpty_cons, hds, if_true, if_false, Bool.false_eq_true]
      by_cases hn : 0 < natOfDigits (d :: ds')
      · simp [hn, hmem, Except.isOk, Except.toBool]
      · simp [hn, hmem, Except.isOk, Except.toBool]

/-- C8 witness: 'i4' is accepted, while the unknown tag 'x' and the
non-positive size 'i0' are rejected with a TypeFormatError. -/
theorem parse_type_descr_accepts_iff_witness :
    (parseTypeChars ['i', '4']).isOk = true
    ∧ parseTypeChars ['x', '4'] = .error .typeFormatError
    ∧ parseTypeChars ['i', '0'] = .error .typeFormatError :=
  ⟨((parse_type_descr_accepts_iff [] 'i' ['4'] (Or.inl rfl) (by decide)
      (by decide)).1).mpr (by decide),
   (parse_type_descr_accepts_iff [] 'x' ['4'] (Or.inl rfl) (by decide)
      (by decide)).2 (by decide),
   (parse_type_descr_accepts_iff [] 'i' ['0'] (Or.inl rfl) (by decide)
      (by decide)).2 (by decide)⟩

theorem pyIdx_shift (i : Int) (n : Nat) (h1 : -(n : Int) ≤ i) (h2 : i < 0) :
    pyIdx i n = pyIdx (i + n) n := by
  unfold pyIdx pyResolve
  split_ifs <;> first
    | rfl
    | (simp only [Option.some.injEq]; omega)
    | (exfalso; omega)

theorem pyIdx_none (i : Int) (n : Nat)
    (h : i < -(n : Int) ∨ (n : Int) ≤ i) : pyIdx i n = none := by
  unfold pyIdx pyResolve
  split_ifs <;> first | rfl | (exfalso; omega)

/-- C5: for a non-empty container get_record(-1) equals
get_record(record_count - 1), negative indices generally count from the
end, get_record(-1) on an empty container fails with an IndexError-class
condition, and so does any index outside [-N, N-1]. -/
theorem get_record_negative_indexing (st : Store) (c : Container) :
    (0 < recordCount st c →
      get_record st c (-1) = get_record st c ((recordCount st c : Int) - 1))
    ∧ (∀ i : Int, -((recordCount st c : Int)) ≤ i → i < 0 →
        get_record st c i = get_record st c (i + recordCount st c))
    ∧ (recordCount st c = 0 → get_record st c (-1) = .error .indexError)
    ∧ (∀ i : Int,
        i < -((recordCount st c : Int)) ∨ (recordCount st c : Int) ≤ i →
        get_record st c i = .error .indexError) := by
  refine ⟨?_, ?_, ?_, ?_⟩
  · intro h
    unfold get_record
    rw [pyIdx_shift (-1) (recordCount st c) (by omega) (by omega)]
    have he : (-1 : Int) + recordCount st c = (recordCount st c : Int) - 1 := by
      omega
    rw [he]
  · intro i h1 h2
    unfold get_record
    rw [pyIdx_shift i (recordCount st c) h1 h2]
  · intro h
    unfold get_record
    rw [pyIdx_none (-1) (recordCount st c) (by omega)]
  · intro i h
    unfold get_record
    rw [pyIdx_none i (recordCount st c) h]

/-- C5 witness: on the 4-record example container, index -1 reads the last
record; on an empty container index -1 fails, and index 4 is out of
range. -/
theorem get_record_negative_indexing_witness :
    get_record exStore exC (-1) = get_record exStore exC 3
    ∧ get_record exEmptyStore exEmptyC (-1) = .error .indexError
    ∧ get_record exStore exC 4 = .error .indexError :=
  ⟨(get_record_negative_indexing exStore exC).1 (by decide),
   (get_record_negative_indexing exEmptyStore exEmptyC).2.2.1 (by decide),
   (get_record_negative_indexing exStore exC).2.2.2 4 (Or.inr (by decide))⟩

/-- C1: for a valid field name and a valid (possibly negative) record
index, field-name access chained with record-position access equals
record-position access chained with field-name access: both read the same
stored record cell. -/
theorem composed_access_consistent (st : Store) (c : Container) (nm : String)
    (i : Int) (k j : Nat) (hk : fieldIndex c.schema nm = some k)
    (hj : pyIdx i (recordCount st c) = some j) :
    fieldThenIndex st c nm i = indexThenField st c i nm := by
  have hjlt : j < (records st c).length := pyIdx_lt hj
  have hj' : pyIdx i ((records st c).length) = some j := hj
  simp only [fieldThenIndex, indexThenField, get_field, get_record,
    recordCount, hk, List.length_map, hj']
  rw [getD_map_of_lt (records st c) _ j _ [] hjlt]

/-- C1 witness: on the example container, data["age"][-1] equals
data[-1]["age"], and on the nested-field container X["mat"][0] equals
X[0]["mat"]. -/
theorem composed_access_consistent_witness :
    fieldThenIndex exStore exC "age" (-1) = indexThenField exStore exC (-1) "age"
    ∧ fieldThenIndex matStore matC "mat" 0 = indexThenField matStore matC 0 "mat" :=
  ⟨composed_access_consistent exStore exC "age" (-1) 1 3 rfl rfl,
   composed_access_consistent matStore matC "mat" 0 1 0 rfl rfl⟩

theorem fieldIndex_lt {sch : List FieldDescr} {nm : String} {k : Nat}
    (h : fieldIndex sch nm = some k) : k < sch.length := by
  induction sch generalizing k with
  | nil => simp [fieldIndex] at h
  | cons fd rest ih =>
    unfold fieldIndex at h
    split at h
    · injection h with h'
      simp only [List.length_cons]
      omega
    · rcases Option.map_eq_some'.mp h with ⟨k', hk', rfl⟩
      have := ih hk'
      simp only [List.length_cons]
      omega

theorem getD_set_self {α : Type _} (l : List α) (i : Nat) (x d : α)
    (h : i < l.length) : (l.set i x).getD i d = x := by
  rw [List.getD_eq_getElem _ _ (by simpa using h), List.getElem_set_self]

theorem getD_set_ne {α : Type _} (l : List α) (i j : Nat) (x d : α)
    (h : i ≠ j) : (l.set i x).getD j d = l.getD j d := by
  by_cases hj : j < l.length
  · rw [List.getD_eq_getElem _ _ (by simpa using hj),
      List.getD_eq_getElem _ _ hj, List.getElem_set_ne h]
  · rw [List.getD_eq_default _ _ (by simp only [List.length_set]; omega),
      List.getD_eq_default _ _ (by omega)]

theorem applyColumn_getD (recs : List (List Value)) (k : Nat)
    (cvs : List Value) (hlen : recs.length = cvs.length)
    (hk : ∀ r ∈ recs, k < r.length) :
    (applyColumn recs k cvs).map (fun r => r.getD k (.intV 0)) = cvs := by
  induction recs generalizing cvs with
  | nil =>
    cases cvs with
    | nil => rfl
    | cons v vs' => simp at hlen
  | cons r rs ih =>
    cases cvs with
    | nil => simp at hlen
    | cons v vs' =>
      have h1 : k < r.length := hk r (by simp)
      simp only [applyColumn, List.zip_cons_cons, List.map_cons]
      rw [show ((r.set k v).getD k (Value.intV 0)) = v from
        getD_set_self r k v _ h1]
      have h2 := ih vs' (by simpa using hlen)
        (fun r' hr' => hk r' (by simp [hr']))
      simp only [applyColumn] at h2
      rw [h2]

theorem set_field_eq_writeField {st : Store} {c : Container} {nm : String}
    {vs : List Value} {k : Nat} (hk : fieldIndex c.schema nm = some k) :
    set_field st c nm vs =
      writeField st c.buf (c.schema.getD k ⟨"", ⟨.rawOpaque, 0⟩, []⟩) k vs := by
  unfold set_field
  rw [hk]

theorem get_field_eq {st : Store} {c : Container} {nm : String} {k : Nat}
    (hk : fieldIndex c.schema nm = some k) :
    get_field st c nm =
      .ok ((records st c).map (fun r => r.getD k (.intV 0))) := by
  unfold get_field
  rw [hk]

theorem writeField_ok {st : Store} {bufId : Nat} {fd : FieldDescr} {k : Nat}
    {vs : List Value} {st' : Store}
    (h : writeField st bufId fd k vs = .ok st') :
    vs.length = (st.bufs.getD bufId []).length ∧
    st' = ⟨st.bufs.set bufId
      (applyColumn (st.bufs.getD bufId []) k (vs.map (coerceValue fd.type)))⟩ := by
  unfold writeField at h
  split at h
  · split at h
    · exact ⟨by assumption, (Except.ok.inj h).symm⟩
    · cases h
  · cases h

/-- C2: when set_field(f, v) succeeds, get_field(f) returns exactly the
stored sequence — v mapped through the field's declared type coercion —
and hence v itself whenever the coercion fixes every element of v (e.g. no
over-length string was truncated). -/
theorem set_get_roundtrip (st : Store) (c : Container) (nm : String)
    (vs : List Value) (k : Nat) (st' : Store)
    (hk : fieldIndex c.schema nm = some k)
    (hbuf : c.buf < st.bufs.length)
    (hrec : ∀ r ∈ records st c, c.schema.length ≤ r.length)
    (hset : set_field st c nm vs = .ok st') :
    get_field st' c nm =
      .ok (vs.map (coerceValue (c.schema.getD k ⟨"", ⟨.rawOpaque, 0⟩, []⟩).type))
    ∧ ((∀ v ∈ vs,
          coerceValue (c.schema.getD k ⟨"", ⟨.rawOpaque, 0⟩, []⟩).type v = v) →
        get_field st' c nm = .ok vs) := by
  have hklt : k < c.schema.length := fieldIndex_lt hk
  rw [set_field_eq_writeField hk] at hset
  obtain ⟨hlen, rfl⟩ := writeField_ok hset
  have hcol : records ⟨st.bufs.set c.buf
        (applyColumn (st.bufs.getD c.buf []) k
          (vs.map (coerceValue (c.schema.getD k ⟨"", ⟨.rawOpaque, 0⟩, []⟩).type)))⟩ c
      = applyColumn (records st c) k
          (vs.map (coerceValue (c.schema.getD k ⟨"", ⟨.rawOpaque, 0⟩, []⟩).type)) :=
    getD_set_self _ _ _ _ hbuf
  have hmap := applyColumn_getD (records st c) k
    (vs.map (coerceValue (c.schema.getD k ⟨"", ⟨.rawOpaque, 0⟩, []⟩).type))
    (by simp only [records, List.length_map]; exact hlen.symm)
    (fun r hr => lt_of_lt_of_le hklt (hrec r hr))
  constructor
  · rw [get_field_eq hk, hcol, hmap]
  · intro hid
    rw [get_field_eq hk, hcol, hmap]
    have hidm : vs.map
        (coerceValue (c.schema.getD k ⟨"", ⟨.rawOpaque, 0⟩, []⟩).type) = vs := by
      calc vs.map (coerceValue (c.schema.getD k ⟨"", ⟨.rawOpaque, 0⟩, []⟩).type)
          = vs.map id := List.map_congr_left (fun v hv => hid v hv)
        _ = vs := List.map_id vs
    rw [hidm]

/-- C2 witness: writing four fresh in-bounds names into the example
container's "name" field and reading the field back returns them
verbatim. -/
theorem set_get_roundtrip_witness :
    get_field exRenamedStore exC "name" = .ok exNewNames := by
  have h := set_get_roundtrip exStore exC "name" exNewNames 0 exRenamedStore
    rfl (by decide)
    (by
      intro r hr
      have hr' : r ∈ exRecords := hr
      simp only [exRecords, List.mem_cons, List.not_mem_nil, or_false] at hr'
      rcases hr' with rfl | rfl | rfl | rfl <;> decide)
    rfl
  exact h.2 (by
    intro v hv
    simp only [exNewNames, List.mem_cons, List.not_mem_nil, or_false] at hv
    rcases hv with rfl | rfl | rfl | rfl <;> rfl)

theorem maskFilter_length (ms : List Bool) (rs : List (List Value))
    (h : ms.length = rs.length) :
    (maskFilter ms rs).length = ms.countP (fun b => b) := by
  induction ms generalizing rs with
  | nil => simp [maskFilter]
  | cons b ms' ih =>
    cases rs with
    | nil => simp at h
    | cons r rs' =>
      have h' : ms'.length = rs'.length := by simpa using h
      cases b with
      | true => simp [maskFilter, ih rs' h', List.countP_cons]
      | false => simp [maskFilter, ih rs' h', List.countP_cons]

theorem specMaskSelect_cons (b : Bool) (ms : List Bool)
    (r : List Value) (rs : List (List Value)) :
    specMaskSelect (b :: ms) (r :: rs) =
      (if b then [r] else []) ++ specMaskSelect ms rs := by
  unfold specMaskSelect maskPositions
  simp only [List.length_cons, List.range_succ_eq_map, List.filter_cons,
    List.getD_cons_zero, List.filter_map, List.map_map, Function.comp_def,
    List.getElem?_cons_succ]
  cases b <;> simp [List.getD]

theorem maskFilter_eq_specMaskSelect (ms : List Bool)
    (rs : List (List Value)) (h : ms.length = rs.length) :
    maskFilter ms rs = specMaskSelect ms rs := by
  induction ms generalizing rs with
  | nil => simp [maskFilter, specMaskSelect, maskPositions]
  | cons b ms' ih =>
    cases rs with
    | nil => simp at h
    | cons r rs' =>
      have h' : ms'.length = rs'.length := by simpa using h
      rw [specMaskSelect_cons]
      cases b with
      | true => simp [maskFilter, ih rs' h']
      | false => simp [maskFilter, ih rs' h']

theorem select_ok {st : Store} {c : Container} {mask : List Bool}
    {c' : Container} {st' : Store}
    (h : select st c mask = .ok (c', st')) :
    mask.length = recordCount st c ∧ c' = ⟨st.bufs.length, c.schema⟩ ∧
    st' = ⟨st.bufs ++ [maskFilter mask (records st c)]⟩ := by
  unfold select at h
  split at h
  · have hp := Except.ok.inj h
    exact ⟨by assumption, congrArg Prod.fst hp |>.symm,
      congrArg Prod.snd hp |>.symm⟩
  · cases h

theorem getD_append_len {α : Type _} (l : List α) (x d : α) :
    (l ++ [x]).getD l.length d = x := by
  rw [List.getD_append_right _ _ _ _ (le_refl _)]
  simp

/-- C3: select(mask) succeeds exactly when the mask's length equals
record_count (failing otherwise with a ShapeMismatchError), and on success
the result holds exactly the records at true positions, in their original
relative order, with length the number of true entries. -/
theorem select_mask_spec (st : Store) (c : Container) (mask : List Bool) :
    ((select st c mask).isOk ↔ mask.length = recordCount st c)
    ∧ (mask.length ≠ recordCount st c →
        select st c mask = .error .shapeMismatchError)
    ∧ (∀ c' st', select st c mask = .ok (c', st') →
        recordCount st' c' = mask.countP (fun b => b)
        ∧ records st' c' = specMaskSelect mask (records st c)
        ∧ c'.schema = c.schema) := by
  refine ⟨?_, ?_, ?_⟩
  · by_cases hm : mask.length = recordCount st c
    · simp [select, hm, Except.isOk, Except.toBool]
    · simp [select, hm, Except.isOk, Except.toBool]
  · intro hm
    unfold select
    rw [if_neg hm]
  · intro c' st' hsel
    obtain ⟨hm, rfl, rfl⟩ := select_ok hsel
    have hrec : records ⟨st.bufs ++ [maskFilter mask (records st c)]⟩
        ⟨st.bufs.length, c.schema⟩ = maskFilter mask (records st c) := by
      unfold records
      exact getD_append_len _ _ _
    refine ⟨?_, ?_, rfl⟩
    · unfold recordCount
      rw [hrec]
      exact maskFilter_length mask (records st c) hm
    · rw [hrec]
      exact maskFilter_eq_specMaskSelect mask (records st c) hm

/-- C3 witness: on the example data with ages [25, 45, 37, 19], the mask
age < 30 selects exactly the records for "Alice" and "Doug", in that
order, into a container of length 2. -/
theorem select_mask_spec_witness :
    recordCount exSelStore exSelC = 2
    ∧ records exSelStore exSelC =
        specMaskSelect (intLtMask exAges 30) (records exStore exC)
    ∧ get_field exSelStore exSelC "name" = .ok [.strV "Alice", .strV "Doug"] := by
  have h := (select_mask_spec exStore exC (intLtMask exAges 30)).2.2
    exSelC exSelStore rfl
  exact ⟨h.1.trans (by decide), h.2.1, rfl⟩

theorem scalarMatches_zeroScalar (ft : FieldType) :
    scalarMatches ft (zeroScalar ft) = true := by
  cases hc : ft.cls <;> simp [scalarMatches, zeroScalar, hc]

theorem valueMatches_zeroValue (ft : FieldType) (sh : List Nat) :
    valueMatches ft sh (zeroValue ft sh) = true := by
  induction sh with
  | nil => simpa [valueMatches, zeroValue] using scalarMatches_zeroScalar ft
  | cons d ds ih =>
    have hall : ∀ m,
        valueListMatches ft ds (List.replicate m (zeroValue ft ds)) = true := by
      intro m
      induction m with
      | zero => rfl
      | succ m ihm => simp [List.replicate_succ, valueListMatches, ih, ihm]
    simp [zeroValue, valueMatches, List.length_replicate, hall d]

theorem zip_zero_all_matches (sch : List FieldDescr) :
    (sch.zip (sch.map (fun fd => zeroValue fd.type fd.shape))).all
      (fun p => valueMatches p.1.type p.1.shape p.2) = true := by
  induction sch with
  | nil => rfl
  | cons fd rest ih =>
    simp [List.map_cons, List.zip_cons_cons, List.all_cons,
      valueMatches_zeroValue fd.type fd.shape, ih]

theorem pyIdx_nonneg (i : Int) (n : Nat) (h0 : 0 ≤ i) (hn : i < (n : Int)) :
    pyIdx i n = some i.toNat := by
  unfold pyIdx pyResolve
  rw [if_neg (by omega : ¬ i < 0), if_pos ⟨h0, hn⟩]

theorem getD_replicate {α : Type _} (x d : α) (n j : Nat) (h : j < n) :
    (List.replicate n x).getD j d = x := by
  rw [List.getD_eq_getElem _ _ (by simpa using h), List.getElem_replicate]

theorem get_record_eq {st : Store} {c : Container} {i : Int} {j : Nat}
    (hj : pyIdx i (recordCount st c) = some j) :
    get_record st c i = .ok ((records st c).getD j []) := by
  unfold get_record
  rw [hj]

theorem construct_ok {sp : SchemaSpec} {n : Int} {st : Store} {c : Container}
    {st' : Store} (h : construct sp n st = .ok (c, st')) :
    ∃ schema, normalize sp = .ok schema
      ∧ 0 ≤ n
      ∧ c = ⟨st.bufs.length, schema⟩
      ∧ st' = ⟨st.bufs ++
          [List.replicate n.toNat
            (schema.map (fun fd => zeroValue fd.type fd.shape))]⟩ := by
  unfold construct at h
  split at h
  · cases h
  · next schema heq =>
    split at h
    · split at h
      · have hp := Except.ok.inj h
        exact ⟨schema, heq, by assumption,
          congrArg Prod.fst hp |>.symm, congrArg Prod.snd hp |>.symm⟩
      · cases h
    · cases h

/-- C4: a successful Construct yields a zero-initialized container: every
in-range record reads back as the tuple of per-field zero values, whose
length is the schema's field count and whose entries all inhabit their
declared field types and shapes. -/
theorem construct_zero_init (sp : SchemaSpec) (n : Int) (st : Store)
    (c : Container) (st' : Store) (hc : construct sp n st = .ok (c, st'))
    (i : Int) (h0 : 0 ≤ i) (hi : i < n) :
    get_record st' c i =
      .ok (c.schema.map (fun fd => zeroValue fd.type fd.shape))
    ∧ (c.schema.map (fun fd => zeroValue fd.type fd.shape)).length
        = c.schema.length
    ∧ (c.schema.zip (c.schema.map (fun fd => zeroValue fd.type fd.shape))).all
        (fun p => valueMatches p.1.type p.1.shape p.2) = true := by
  obtain ⟨schema, hnorm, hn, rfl, rfl⟩ := construct_ok hc
  have hrecs : records
      ⟨st.bufs ++ [List.replicate n.toNat
        (schema.map (fun fd => zeroValue fd.type fd.shape))]⟩
      ⟨st.bufs.length, schema⟩
      = List.replicate n.toNat
          (schema.map (fun fd => zeroValue fd.type fd.shape)) := by
    unfold records
    exact getD_append_len _ _ _
  have hcount : recordCount
      ⟨st.bufs ++ [List.replicate n.toNat
        (schema.map (fun fd => zeroValue fd.type fd.shape))]⟩
      ⟨st.bufs.length, schema⟩ = n.toNat := by
    unfold recordCount
    rw [hrecs]
    exact List.length_replicate _ _
  refine ⟨?_, List.length_map _ _, zip_zero_all_matches schema⟩
  rw [get_record_eq (j := i.toNat)
    (by rw [hcount]; exact pyIdx_nonneg i n.toNat h0 (by omega)),
    hrecs, getD_replicate _ _ _ _ (by omega)]

/-- C4 witness: constructing the length-1 container with the nested-field
schema (id i8, mat f8 (3,3)) and reading record 0 returns a zero id and a
3x3 all-zero block. -/
theorem construct_zero_init_witness :
    get_record matStore matC 0 = .ok [.intV 0, matZero] := by
  have h := construct_zero_init matSpec 1 ⟨[]⟩ matC matStore rfl 0
    (by decide) (by decide)
  exact h.1

theorem mapFields_map {α β : Type _} (g : α → β)
    (f : β → Except Err FieldDescr) (l : List α) :
    mapFields f (l.map g) = mapFields (fun a => f (g a)) l := by
  induction l with
  | nil => rfl
  | cons a l ih => simp [mapFields, ih]

theorem autoNames_length (n : Nat) : (autoNames n).length = n := by
  simp [autoNames]

/-- C6: normalization is pure and idempotent — an already-normalized schema
is returned unchanged — and the equivalent specification forms (name map,
tuple list, and compact type-only list with auto-generated names "f0",
"f1", ...) normalize to the same canonical schema. -/
theorem normalize_forms (s : SchemaSpec) :
    (∀ fields, normalize (.canonicalForm fields) = .ok fields)
    ∧ (∀ cfg, normalize s = .ok cfg → normalize (.canonicalForm cfg) = .ok cfg)
    ∧ (∀ names formats, names.length = formats.length →
        normalize (.mapForm names formats) =
          normalize (.tupleForm
            ((names.zip formats).map (fun p => (p.1, p.2, ([] : List Nat))))))
    ∧ (∀ formats, normalize (.compactForm formats) =
        normalize (.mapForm (autoNames formats.length) formats)) := by
  refine ⟨fun fields => rfl, fun cfg h => rfl, ?_, ?_⟩
  · intro names formats hlen
    simp only [normalize]
    rw [if_pos hlen, mapFields_map]
  · intro formats
    simp only [normalize]
    rw [if_pos (autoNames_length formats.length)]

/-- C6 witness: the notebook's dictionary form, tuple-list form and compact
form normalize consistently, with the canonical result returned unchanged
when normalized again. -/
theorem normalize_forms_witness :
    normalize (.mapForm ["name", "age", "weight"] ["U10", "i4", "f8"]) =
      normalize (.tupleForm
        [("name", "U10", []), ("age", "i4", []), ("weight", "f8", [])])
    ∧ normalize (.mapForm ["name", "age", "weight"] ["U10", "i4", "f8"])
        = .ok exSchema
    ∧ normalize (.canonicalForm exSchema) = .ok exSchema
    ∧ normalize (.compactForm ["S10", "i4", "f8"]) =
        normalize (.mapForm (autoNames 3) ["S10", "i4", "f8"]) := by
  refine ⟨?_, rfl, ?_, ?_⟩
  · exact (normalize_forms (.canonicalForm exSchema)).2.2.1 _ _ rfl
  · exact (normalize_forms
      (.mapForm ["name", "age", "weight"] ["U10", "i4", "f8"])).2.1 exSchema rfl
  · exact (normalize_forms (.canonicalForm exSchema)).2.2.2 ["S10", "i4", "f8"]

theorem lookupName_buildNameMap (sch : List FieldDescr) (nm : String)
    (i : Nat) :
    lookupName (buildNameMap i sch) nm = (fieldIndex sch nm).map (· + i) := by
  induction sch generalizing i with
  | nil => rfl
  | cons fd rest ih =>
    unfold buildNameMap lookupName fieldIndex
    split_ifs with h
    · simp
    · rw [ih (i + 1)]
      cases fieldIndex rest nm with
      | none => rfl
      | some k =>
        simp only [Option.map_some', Option.some.injEq]
        omega

/-- C7: the attribute-style view is observationally equivalent to keyed
access — reads and writes through the view are the very same operations as
the container's own name-based reads and writes — and it never forks
storage: the view's base is the container itself. -/
theorem attr_view_equiv (st : Store) (c : Container) (nm : String) :
    attr_get st (as_attribute_view c) nm = get_field st c nm
    ∧ (∀ vs, attr_set st (as_attribute_view c) nm vs = set_field st c nm vs)
    ∧ (as_attribute_view c).base = c := by
  have hl : lookupName (as_attribute_view c).nameMap nm
      = fieldIndex c.schema nm := by
    show lookupName (buildNameMap 0 c.schema) nm = fieldIndex c.schema nm
    rw [lookupName_buildNameMap]
    cases fieldIndex c.schema nm with
    | none => rfl
    | some k => simp
  refine ⟨?_, ?_, rfl⟩
  · unfold attr_get get_field
    rw [hl]
    cases fieldIndex c.schema nm <;> rfl
  · intro vs
    unfold attr_set set_field
    rw [hl]
    cases fieldIndex c.schema nm <;> rfl

/-- C10: selection copies — a successful select returns a container over a
fresh buffer, the original records are untouched by the selection, and
writing a field of the selection result leaves every record of the
original container unchanged. -/
theorem select_is_copy (st : Store) (c : Container) (mask : List Bool)
    (c' : Container) (st' : Store) (hbuf : c.buf < st.bufs.length)
    (hsel : select st c mask = .ok (c', st')) :
    c'.buf ≠ c.buf
    ∧ records st' c = records st c
    ∧ (∀ nm vs st₂, set_field st' c' nm vs = .ok st₂ →
        records st₂ c = records st c) := by
  obtain ⟨hm, rfl, rfl⟩ := select_ok hsel
  refine ⟨?_, ?_, ?_⟩
  · show st.bufs.length ≠ c.buf
    omega
  · show (st.bufs ++ [maskFilter mask (records st c)]).getD c.buf []
        = records st c
    exact List.getD_append _ _ _ _ hbuf
  · intro nm vs st₂ hw
    unfold set_field at hw
    split at hw
    · cases hw
    · obtain ⟨hlen, rfl⟩ := writeField_ok hw
      show ((st.bufs ++ [maskFilter mask (records st c)]).set
          st.bufs.length _).getD c.buf [] = records st c
      rw [getD_set_ne _ _ _ _ _ (by omega)]
      exact List.getD_append _ _ _ _ hbuf

/-- C10 witness: after selecting Alice and Doug by mask from the example
container and overwriting the selection's ages with [99, 100], the
original container's records are exactly as before. -/
theorem select_is_copy_witness :
    records exSelWrittenStore exC = records exStore exC := by
  have h := select_is_copy exStore exC [true, false, false, true] exSelC
    exSelStore (by decide) rfl
  exact h.2.2 "age" [.intV 99, .intV 100] exSelWrittenStore rfl

end NpStruct
